import Mathlib

/-!
Shallow embedding of the `golang-pointers` demonstration program
(`src/pointers.go`) and proofs of its specification claims.

The program is:

```
func main() {
    age := 29
    agePtr := &age
    fmt.Println("Age Pointer (&agePtr):", agePtr)
    fmt.Println("Age (*agePtr):", *agePtr)
    editAgeToAdultYears(agePtr)
    fmt.Println("Adult years:", age)
}

func editAgeToAdultYears(age *int) {
    *age -= 18
}
```

Modelling choices:
- Memory is a total map `Addr → Int`: in safe Go a non-nil `*int` always
  refers to a live `int` cell, so every address holds a value.
- A `*int` value is either nil or an address.
- Go `int` is a 64-bit two's-complement machine integer; arithmetic wraps,
  which `wrap` makes explicit.
- A faulting dereference (nil pointer) is `none`.
- `main` is parameterised by the address the allocator picks for the local
  variable `age`; it returns the final heap, the printed lines, a
  statement-level event trace, and the exit code.
-/

/-- Memory addresses. -/
abbrev Addr := Nat

/-- A Go pointer of type `*int`: nil, or the address of an int cell. -/
inductive Ptr where
  | nil : Ptr
  | addr : Addr → Ptr
deriving DecidableEq

/-- Go memory for `int` cells. Total: a non-nil `*int` in safe Go always
points at a live cell. -/
abbrev Heap := Addr → Int

/-- `2 ^ 63`, the magnitude of the smallest Go `int`. -/
def twoPow63 : Int := 9223372036854775808

/-- `2 ^ 64`, the modulus of Go `int` arithmetic. -/
def twoPow64 : Int := 18446744073709551616

/-- The smallest value of Go `int`. -/
def intMin : Int := -twoPow63

/-- 64-bit two's-complement wraparound: the value a Go `int` actually
holds after an arithmetic operation whose exact result is `x`. -/
def wrap (x : Int) : Int := (x + twoPow63) % twoPow64 - twoPow63

/-- Store `v` at address `a`. -/
def heapWrite (h : Heap) (a : Addr) (v : Int) : Heap :=
  fun b => if b = a then v else h b

/-- Dereference for reading, `*p`. Faults (`none`) exactly on nil. -/
def derefRead (p : Ptr) (h : Heap) : Option Int :=
  match p with
  | .nil => none
  | .addr a => some (h a)

/-- Dereference for writing, `*p = v`. Faults (`none`) exactly on nil. -/
def derefWrite (p : Ptr) (v : Int) (h : Heap) : Option Heap :=
  match p with
  | .nil => none
  | .addr a => some (heapWrite h a v)

/-- `func editAgeToAdultYears(age *int) { *age -= 18 }`.
The compound assignment reads `*age`, subtracts 18 with Go's wrapping
`int` arithmetic, and writes the result back through the pointer.
The Go function returns nothing; the `Option Heap` is the resulting
memory state, `none` meaning a nil-dereference fault. -/
def editAgeToAdultYears (age : Ptr) (h : Heap) : Option Heap := do
  let v ← derefRead age h
  derefWrite age (wrap (v - 18)) h

/-- The value assigned to `age` at the start of `main`. -/
def ageInit : Int := 29

/-- One printed line of the program's standard output.
`ptrLine a` is the line showing the pointer's address representation,
`ageLine v` the line showing the dereferenced value, and
`adultLine v` the final line showing the mutated variable. -/
inductive OutLine where
  | ptrLine : Addr → OutLine
  | ageLine : Int → OutLine
  | adultLine : Int → OutLine
deriving DecidableEq

/-- Statement-level events of a run of the program. -/
inductive Event where
  | createVar : Addr → Int → Event
  | takeAddr : Addr → Event
  | printOut : OutLine → Event
  | derefReadStep : Addr → Int → Event
  | callEdit : Event
  | mutateStep : Addr → Int → Event
  | retEdit : Event
  | readVarStep : Addr → Int → Event
deriving DecidableEq

/-- Is the event a mutation of storage through the pointer? -/
def Event.isMutation : Event → Bool
  | .mutateStep _ _ => true
  | _ => false

/-- Is the event the taking of a variable's address? -/
def Event.isTakeAddr : Event → Bool
  | .takeAddr _ => true
  | _ => false

/-- Is the event a read through the pointer? -/
def Event.isDerefRead : Event → Bool
  | .derefReadStep _ _ => true
  | _ => false

/-- The observable outcome of a run of `main`. -/
structure RunResult where
  finalHeap : Heap
  output : List OutLine
  events : List Event
  exitCode : Nat

/-- `func main()`, parameterised by the address `ageAddr` that the
allocator picks for the local variable `age`. Returns `none` if any
step faults (none does). Named `mainRun` because Lean reserves `main`
for executable entry points. -/
def mainRun (ageAddr : Addr) : Option RunResult := do
  let h1 := heapWrite (fun _ => 0) ageAddr ageInit
  let agePtr := Ptr.addr ageAddr
  let v1 ← derefRead agePtr h1
  let h2 ← editAgeToAdultYears agePtr h1
  let v2 := h2 ageAddr
  pure ⟨h2,
    [OutLine.ptrLine ageAddr, OutLine.ageLine v1, OutLine.adultLine v2],
    [Event.createVar ageAddr ageInit, Event.takeAddr ageAddr,
      Event.printOut (OutLine.ptrLine ageAddr),
      Event.derefReadStep ageAddr v1,
      Event.printOut (OutLine.ageLine v1),
      Event.callEdit, Event.mutateStep ageAddr (h2 ageAddr), Event.retEdit,
      Event.readVarStep ageAddr v2,
      Event.printOut (OutLine.adultLine v2)],
    0⟩

/-- `n` successive calls of `editAgeToAdultYears` on the pointer to `a`.
A call through a non-nil pointer never faults, so `getD` never takes
its fallback. -/
def editIter (a : Addr) : Nat → Heap → Heap
  | 0, h => h
  | n + 1, h => editIter a n ((editAgeToAdultYears (Ptr.addr a) h).getD h)

/-! ### Helper lemmas -/

theorem wrap_eq_self {x : Int} (hlo : intMin ≤ x) (hhi : x < twoPow63) :
    wrap x = x := by
  unfold wrap intMin twoPow63 twoPow64 at *
  omega

theorem wrap_bounds (x : Int) : intMin ≤ wrap x ∧ wrap x < twoPow63 := by
  unfold wrap intMin twoPow63 twoPow64
  omega

theorem wrap_wrap_sub (x y : Int) : wrap (wrap x - y) = wrap (x - y) := by
  unfold wrap twoPow63 twoPow64
  omega

theorem edit_addr_eq (a : Addr) (h : Heap) :
    editAgeToAdultYears (Ptr.addr a) h =
      some (heapWrite h a (wrap (h a - 18))) := rfl

theorem wrap_eleven : wrap 11 = 11 := by
  unfold wrap twoPow63 twoPow64
  omega

theorem main_eq (a : Addr) :
    mainRun a = some ⟨heapWrite (heapWrite (fun _ => 0) a ageInit) a 11,
      [OutLine.ptrLine a, OutLine.ageLine 29, OutLine.adultLine 11],
      [Event.createVar a 29, Event.takeAddr a,
        Event.printOut (OutLine.ptrLine a),
        Event.derefReadStep a 29,
        Event.printOut (OutLine.ageLine 29),
        Event.callEdit, Event.mutateStep a 11, Event.retEdit,
        Event.readVarStep a 11,
        Event.printOut (OutLine.adultLine 11)],
      0⟩ := by
  have hv : heapWrite (fun _ => 0) a ageInit a = 29 := by
    simp [heapWrite, ageInit]
  have hw : heapWrite (heapWrite (fun _ => 0) a ageInit) a
      (wrap (heapWrite (fun _ => 0) a ageInit a - 18)) =
      heapWrite (heapWrite (fun _ => 0) a ageInit) a 11 := by
    rw [hv]
    norm_num [wrap_eleven]
  simp only [mainRun, derefRead, edit_addr_eq, Option.bind_eq_bind,
    Option.some_bind, hw, ageInit, hv]
  simp [heapWrite, wrap_eleven]

/-! ### Claims -/

/-- C1: when the program starts with the variable `age` holding 29, after
the single call to `editAgeToAdultYears` (which subtracts 18), re-reading
`age` yields exactly 11. -/
theorem main_final_age_eq_eleven (a : Addr) :
    ∃ r, mainRun a = some r ∧ r.finalHeap a = 11 := by
  refine ⟨_, main_eq a, ?_⟩
  simp [heapWrite]

/-- C2 counterexample: `editAgeToAdultYears` does not store exactly
`v - 18` for every stored `v`: at `v = intMin` (the smallest Go `int`,
`-2^63`) Go's wrapping `int` subtraction stores `2^63 - 18`, not
`intMin - 18` (which is not representable). -/
theorem edit_not_exact_sub_at_intMin :
    (editAgeToAdultYears (Ptr.addr 0) (fun _ => intMin)).map (fun h => h 0)
      ≠ some (intMin - 18) := by
  simp only [edit_addr_eq, Option.map_some', heapWrite, eq_self_iff_true,
    if_true, ne_eq, Option.some.injEq]
  unfold wrap intMin twoPow63 twoPow64
  omega

/-- C2 amended: for every representable value `v` stored at the address
with `v ≥ intMin + 18`, the call stores exactly `v - 18` at that address,
leaves every other address unchanged, and produces no return value (the
`some` is the resulting memory, observed by the caller re-reading the
variable). For `v < intMin + 18` the subtraction wraps around. -/
theorem edit_stores_sub18 (a : Addr) (h : Heap) (v : Int) (hv : h a = v)
    (hlo : intMin + 18 ≤ v) (hhi : v < twoPow63) :
    editAgeToAdultYears (Ptr.addr a) h = some (heapWrite h a (v - 18)) := by
  have h1 : intMin ≤ v - 18 := by
    simp only [intMin, twoPow63] at hlo ⊢
    omega
  have h2 : v - 18 < twoPow63 := by
    simp only [intMin, twoPow63] at hlo hhi ⊢
    omega
  rw [edit_addr_eq, hv, wrap_eq_self h1 h2]

/-- C2 witness: a concrete in-range instance, `v = 29`. -/
theorem edit_stores_sub18_w :
    editAgeToAdultYears (Ptr.addr 0) (fun _ => (29 : Int)) =
      some (heapWrite (fun _ => (29 : Int)) 0 (29 - 18)) :=
  edit_stores_sub18 0 (fun _ => (29 : Int)) 29 rfl
    (by simp only [intMin, twoPow63]; omega)
    (by simp only [twoPow63]; omega)

/-- C3: the read through the pointer performed before the mutation call
prints 29 (the value assigned at the start), and the read performed after
the mutation call prints 29 - 18 = 11. -/
theorem main_reads_29_then_11 (a : Addr) :
    ∃ r, mainRun a = some r ∧
      r.output.get? 1 = some (OutLine.ageLine 29) ∧
      r.output.get? 2 = some (OutLine.adultLine 11) :=
  ⟨_, main_eq a, rfl, rfl⟩

/-- C4: aliasing invariant — a pointer taken from the variable at address
`a` reads exactly the variable's current value, and any write through it
is observable by reading the variable. -/
theorem pointer_aliases_variable (a : Addr) (h : Heap) (v : Int) :
    derefRead (Ptr.addr a) h = some (h a) ∧
      (derefWrite (Ptr.addr a) v h).map (fun g => g a) = some v := by
  refine ⟨rfl, ?_⟩
  simp [derefWrite, heapWrite]

/-- C5 counterexample: the output is not one fixed sequence across all
runs — the first line carries the pointer's address representation, which
depends on the address the allocator picked, so runs with different
allocation addresses print different first lines. -/
theorem main_output_depends_on_address :
    (mainRun 0).map RunResult.output ≠ (mainRun 1).map RunResult.output := by
  rw [main_eq 0, main_eq 1]
  simp

/-- C5 amended: every run writes exactly three lines to standard output —
the pointer's address representation, then the dereferenced value 29, then
the final mutated value 11 — and exits with code 0; only the address
representation in the first line varies with the allocated address. -/
theorem main_output_shape (a : Addr) :
    ∃ r, mainRun a = some r ∧
      r.output =
        [OutLine.ptrLine a, OutLine.ageLine 29, OutLine.adultLine 11] ∧
      r.exitCode = 0 :=
  ⟨_, main_eq a, rfl, rfl⟩

/-- C6: no error condition is reachable — the pointer passed to
`editAgeToAdultYears` is the address of the local variable `age`, never
nil, so the run never faults (`mainRun` is `some` for every allocation
address). -/
theorem main_no_fault (a : Addr) :
    Ptr.addr a ≠ Ptr.nil ∧ (mainRun a).isSome = true := by
  refine ⟨fun hc => Ptr.noConfusion hc, ?_⟩
  rw [main_eq a]
  rfl

/-- C7: lifecycle — the run's trace starts with the creation of `age`
(value 29), takes its address exactly once, reads through the pointer
exactly once, and mutates storage through the pointer exactly once
(to 11), with no further mutation before the routine returns. -/
theorem main_mutates_once (a : Addr) :
    ∃ r, mainRun a = some r ∧
      r.events.head? = some (Event.createVar a 29) ∧
      r.events.countP Event.isTakeAddr = 1 ∧
      r.events.countP Event.isDerefRead = 1 ∧
      r.events.filter Event.isMutation = [Event.mutateStep a 11] :=
  ⟨_, main_eq a, rfl, rfl, rfl, rfl⟩

/-- C8: the executable behavior is exactly one linear statement sequence —
create the integer, take its address, print the pointer, read and print
the pointee, call the function, mutate the pointee inside it, return, and
read and print the changed variable — with no branching and no other
steps. -/
theorem main_linear_trace (a : Addr) :
    ∃ r, mainRun a = some r ∧
      r.events = [Event.createVar a 29, Event.takeAddr a,
        Event.printOut (OutLine.ptrLine a), Event.derefReadStep a 29,
        Event.printOut (OutLine.ageLine 29), Event.callEdit,
        Event.mutateStep a 11, Event.retEdit, Event.readVarStep a 11,
        Event.printOut (OutLine.adultLine 11)] :=
  ⟨_, main_eq a, rfl⟩

/-- C9: `editAgeToAdultYears` performs no nil check — the call faults
(returns `none`) if and only if its pointer argument is nil. -/
theorem edit_faults_iff_nil (p : Ptr) (h : Heap) :
    editAgeToAdultYears p h = none ↔ p = Ptr.nil := by
  cases p with
  | nil => simp [editAgeToAdultYears, derefRead]
  | addr a => simp [edit_addr_eq]

theorem editIter_frame (a : Addr) (n : Nat) (h : Heap) (b : Addr)
    (hb : b ≠ a) : editIter a n h b = h b := by
  induction n generalizing h with
  | zero => rfl
  | succ n ih =>
    simp only [editIter, edit_addr_eq, Option.getD_some]
    rw [ih]
    simp [heapWrite, hb]

theorem editIter_value (a : Addr) (n : Nat) (h : Heap)
    (hlo : intMin ≤ h a) (hhi : h a < twoPow63) :
    editIter a n h a = wrap (h a - 18 * n) := by
  induction n generalizing h with
  | zero =>
    simp only [editIter, Nat.cast_zero, mul_zero, sub_zero]
    exact (wrap_eq_self hlo hhi).symm
  | succ n ih =>
    simp only [editIter, edit_addr_eq, Option.getD_some]
    have hb := wrap_bounds (h a - 18)
    have h1 : heapWrite h a (wrap (h a - 18)) a = wrap (h a - 18) := by
      simp [heapWrite]
    rw [ih (heapWrite h a (wrap (h a - 18))) (by rw [h1]; exact hb.1)
      (by rw [h1]; exact hb.2), h1, wrap_wrap_sub]
    congr 1
    push_cast
    ring

/-- C10 counterexample: composing the call does not always decrease the
value by exactly 18 per call — starting from `intMin` (the smallest Go
`int`), one call wraps around instead of producing `intMin - 18`. -/
theorem editIter_wraps_at_intMin :
    editIter 0 1 (fun _ => intMin) 0 ≠ intMin - 18 := by
  simp only [editIter, edit_addr_eq, Option.getD_some, heapWrite,
    eq_self_iff_true, if_true, ne_eq]
  unfold wrap intMin twoPow63 twoPow64
  omega

/-- C10 amended: a call modifies only the integer storage referenced by
its argument — every other address is unchanged (and the pointer itself is
passed by value, so the address cannot change). Composing the call `n`
times on the same address yields `wrap (v - 18 * n)` (64-bit wraparound),
which equals exactly `v - 18 * n` whenever that exact value is still
representable; there is no lower bound at zero, so results below zero are
possible (e.g. starting values under 18). -/
theorem editIter_frame_and_value (a : Addr) (h : Heap) (n : Nat)
    (hlo : intMin ≤ h a) (hhi : h a < twoPow63) :
    (∀ b, b ≠ a → editIter a n h b = h b) ∧
      editIter a n h a = wrap (h a - 18 * n) ∧
      (intMin ≤ h a - 18 * n → editIter a n h a = h a - 18 * n) := by
  refine ⟨fun b hb => editIter_frame a n h b hb,
    editIter_value a n h hlo hhi, fun hn => ?_⟩
  rw [editIter_value a n h hlo hhi]
  refine wrap_eq_self hn ?_
  simp only [twoPow63] at hhi ⊢
  omega

/-- C10 witness: starting from 5 (a value under 18), one call leaves
-13, a result below zero. -/
theorem editIter_frame_and_value_w :
    editIter 0 1 (fun _ => (5 : Int)) 0 = -13 ∧ (-13 : Int) < 0 := by
  have h5 := (editIter_frame_and_value 0 (fun _ => (5 : Int)) 1
    (by norm_num [intMin, twoPow63])
    (by norm_num [twoPow63])).2.2
    (by norm_num [intMin, twoPow63])
  norm_num at h5
  exact ⟨h5, by norm_num⟩
